import Mathlib

/-!
# Verification of clean-dev-dirs (scan-classify-clean pipeline)

Shallow embedding of the core of the `clean-dev-dirs` tool: the directory
scanner with its traversal pruner and four-ecosystem classifier
(`src/scanner.rs`), the size/age filter (`src/filtering.rs`), the executable
preserver (`src/executables.rs`) and the batch cleaner (`src/cleaner.rs`).

Paths are modelled as lists of components (root first).  Filesystem queries
performed by the code (`Path::exists`, `Path::is_dir`, `fs::read_dir`,
`fs::copy`, directory-size walks, file-content parsing for project names)
are supplied by explicit oracle records, so every embedded function is a
pure, executable Lean function of the code's inputs plus the answers the
filesystem would give.
-/

namespace CleanDevDirs

/-- A filesystem path, as its list of components, root first.
`Path::components` / `Path::file_name` / `Path::ancestors` of the Rust
standard library become list operations on this representation. -/
abbrev FsPath := List String

/-- `foo/bar/baz` rendering of a path, used in error messages
(`Path::display`). -/
def pathDisplay (p : FsPath) : String :=
  String.intercalate "/" p

/-- `ProjectType` from `src/project/project.rs`: closed variant over the four
supported ecosystems. -/
inductive ProjectType where
  | rust
  | node
  | python
  | go
deriving DecidableEq, Repr

/-- `BuildArtifacts` from `src/project/project.rs`: the cleanable directory
and its byte count (populated by the sizing pass, 0 at detection time). -/
structure BuildArtifacts where
  path : FsPath
  size : Nat
deriving DecidableEq, Repr

/-- `Project` from `src/project/project.rs`. -/
structure Project where
  kind : ProjectType
  root_path : FsPath
  build_arts : BuildArtifacts
  name : Option String
deriving DecidableEq, Repr

/-- `ProjectFilter` from `src/config/filter.rs`. -/
inductive ProjectFilter where
  | all
  | rust
  | node
  | python
  | go
deriving DecidableEq, Repr

/-- `ScanOptions` from `src/config` as used by the scanner: the verbosity
flag, worker count and the user-supplied skip list (`skip: Vec<PathBuf>`;
each entry is compared via `to_string_lossy`, so a plain string here). -/
structure ScanOptions where
  verbose : Bool
  threads : Nat
  skip : List String
deriving Repr

/-- Filesystem oracle for the scanner (`src/scanner.rs`).  Each field answers
one kind of query the Rust code makes:

* `pathExists` — `Path::exists()`;
* `isDir` — `Path::is_dir()`;
* `dirSizeResult` — `Scanner::calculate_directory_size` (the `io::Result`
  recursive size used only by Python detection; `none` models `Err`);
* `buildDirSize` — `Scanner::calculate_build_dir_size` (the error-absorbing
  sizing pass: unreadable entries contribute 0, a missing directory gives 0);
* `rustName`/`nodeName`/`pythonName`/`goName` — the name-extraction helpers
  (`extract_rust_project_name` on the `Cargo.toml` path, etc.).  These wrap
  `fs::read_to_string` plus pure string/JSON parsing; no claim below depends
  on the extracted names, so they are kept as oracles keyed exactly by the
  argument the source passes. -/
structure ScanFS where
  pathExists : FsPath → Bool
  isDir : FsPath → Bool
  dirSizeResult : FsPath → Option Nat
  buildDirSize : FsPath → Nat
  rustName : FsPath → Option String
  nodeName : FsPath → Option String
  pythonName : FsPath → Option String
  goName : FsPath → Option String

/-- `Scanner::is_path_in_skip_list`: some skip entry equals (as a whole
string) some component of the path.  The Rust code compares
`component.as_os_str().to_str() == Some(skip.to_string_lossy())` — whole
component equality, not substring containment. -/
def is_path_in_skip_list (skip : List String) (path : FsPath) : Bool :=
  skip.any fun s => path.any fun component => component == s

/-- The `node_modules` ancestry rule of `Scanner::should_scan_entry`:
`path.ancestors().any(|a| a.file_name() == Some("node_modules"))`.  The file
names of a path's ancestors are exactly the path's components. -/
def hasNodeModulesAncestor (path : FsPath) : Bool :=
  path.any fun component => component == "node_modules"

/-- `Scanner::is_hidden_directory_to_skip`: last component starts with `.`
and is not the allow-listed `.cargo` (`starts_with('.')` is expressed on the
component's character list). -/
def is_hidden_directory_to_skip (path : FsPath) : Bool :=
  match path.getLast? with
  | some name => name.data.head? == some '.' && name != ".cargo"
  | none => false

/-- The fixed exclusion set of `Scanner::is_excluded_directory`. -/
def excluded_dirs : List String :=
  ["target", "build", "dist", "out", ".git", ".svn", ".hg", "__pycache__",
   "venv", ".venv", "env", ".env", "temp", "tmp", "vendor", ".pytest_cache",
   ".tox", ".eggs", ".coverage", "node_modules"]

/-- `Scanner::is_excluded_directory`: last component is in the fixed set. -/
def is_excluded_directory (path : FsPath) : Bool :=
  match path.getLast? with
  | some name => excluded_dirs.contains name
  | none => false

/-- `Scanner::should_scan_entry`: the traversal pruner.  `true` means the
entry is kept for classification. -/
def should_scan_entry (opts : ScanOptions) (path : FsPath) : Bool :=
  if is_path_in_skip_list opts.skip path then false
  else if hasNodeModulesAncestor path then false
  else if is_hidden_directory_to_skip path then false
  else !is_excluded_directory path

/-- `Scanner::detect_rust_project`: `Cargo.toml` and `target/` both present. -/
def detect_rust_project (fs : ScanFS) (path : FsPath) : Option Project :=
  let cargo_toml := path ++ ["Cargo.toml"]
  let target_dir := path ++ ["target"]
  if fs.pathExists cargo_toml && fs.pathExists target_dir then
    some { kind := .rust
           root_path := path
           build_arts := { path := path ++ ["target"], size := 0 }
           name := fs.rustName cargo_toml }
  else
    none

/-- `Scanner::detect_node_project`: `package.json` and `node_modules/` both
present. -/
def detect_node_project (fs : ScanFS) (path : FsPath) : Option Project :=
  let package_json := path ++ ["package.json"]
  let node_modules := path ++ ["node_modules"]
  if fs.pathExists package_json && fs.pathExists node_modules then
    some { kind := .node
           root_path := path
           build_arts := { path := path ++ ["node_modules"], size := 0 }
           name := fs.nodeName package_json }
  else
    none

/-- `Scanner::detect_go_project`: `go.mod` and `vendor/` both present. -/
def detect_go_project (fs : ScanFS) (path : FsPath) : Option Project :=
  let go_mod := path ++ ["go.mod"]
  let vendor_dir := path ++ ["vendor"]
  if fs.pathExists go_mod && fs.pathExists vendor_dir then
    some { kind := .go
           root_path := path
           build_arts := { path := path ++ ["vendor"], size := 0 }
           name := fs.goName go_mod }
  else
    none

/-- The Python config marker files of `Scanner::detect_python_project`. -/
def config_files : List String :=
  ["requirements.txt", "setup.py", "pyproject.toml", "setup.cfg", "Pipfile",
   "pipenv.lock", "poetry.lock"]

/-- The Python cache/build candidate directories of
`Scanner::detect_python_project`, in source enumeration order. -/
def build_dirs : List String :=
  ["__pycache__", ".pytest_cache", "venv", ".venv", "build", "dist",
   ".eggs", ".tox", ".coverage"]

/-- The candidate-selection loop of `Scanner::detect_python_project`: fold
over the candidate names carrying `(largest_build_dir, largest_size)`,
updating only when the candidate exists, is a directory, its size computes
to `Ok(size)` and `size > largest_size` (strict, so ties keep the earlier
candidate). -/
def pythonFoldDirs (fs : ScanFS) (path : FsPath) :
    List String → Option FsPath × Nat → Option FsPath × Nat
  | [], acc => acc
  | d :: ds, acc =>
      let dir_path := path ++ [d]
      let next :=
        match (if fs.pathExists dir_path && fs.isDir dir_path then
                 fs.dirSizeResult dir_path
               else none) with
        | some size => if acc.2 < size then (some dir_path, size) else acc
        | none => acc
      pythonFoldDirs fs path ds next

/-- `Scanner::detect_python_project`: at least one config marker present,
then the selection loop; a project is produced only when the loop found a
candidate (which requires a strictly positive computed size). -/
def detect_python_project (fs : ScanFS) (path : FsPath) : Option Project :=
  let has_config := config_files.any fun file => fs.pathExists (path ++ [file])
  if !has_config then none
  else
    match (pythonFoldDirs fs path build_dirs (none, 0)).1 with
    | some build_path =>
        some { kind := .python
               root_path := path
               build_arts := { path := build_path, size := 0 }
               name := fs.pythonName path }
    | none => none

/-- `Scanner::detect_project`: directory entries only; the four ecosystem
rules are tried in the fixed order Rust, Node, Python, Go, each guarded by
the project filter, and the first `Some` wins. -/
def detect_project (fs : ScanFS) (filter : ProjectFilter) (path : FsPath)
    (entryIsDir : Bool) : Option Project :=
  if !entryIsDir then none
  else
    match (if filter == .all || filter == .rust then
             detect_rust_project fs path
           else none) with
    | some project => some project
    | none =>
      match (if filter == .all || filter == .node then
               detect_node_project fs path
             else none) with
      | some project => some project
      | none =>
        match (if filter == .all || filter == .python then
                 detect_python_project fs path
               else none) with
        | some project => some project
        | none =>
          if filter == .all || filter == .go then
            detect_go_project fs path
          else none

/-- A directory tree on disk (directories only; plain files are answered by
the `ScanFS` oracle and can never be classified, since `detect_project`
rejects non-directory entries). -/
inductive DirTree where
  | mk (name : String) (children : List DirTree)

mutual
/-- The entries `WalkDir::new(root)` yields below `base` for this tree: the
directory itself followed by its whole subtree, in depth-first order.
`WalkDir` enumerates every descendant — the scanner pipes the iterator
through `Iterator::filter(should_scan_entry)`, which drops entries from the
stream but does not prune the walk (the repository's own test
`test_projects_inside_hidden_dirs_are_still_traversed_unix` asserts that
children of excluded directories are still visited). -/
def walkDirPaths (base : FsPath) : DirTree → List FsPath
  | .mk name children =>
      (base ++ [name]) :: walkDirPathsList (base ++ [name]) children

/-- Walk of a list of sibling subtrees. -/
def walkDirPathsList (base : FsPath) : List DirTree → List FsPath
  | [] => []
  | t :: ts => walkDirPaths base t ++ walkDirPathsList base ts
end

/-- The sizing step applied to one detected project in
`Scanner::scan_directory`: compute `calculate_build_dir_size`, store it in
`build_arts.size`, and keep the project only when the size is positive. -/
def sizeProject (fs : ScanFS) (project : Project) : Option Project :=
  let size := fs.buildDirSize project.build_arts.path
  if size > 0 then
    some { project with build_arts := { project.build_arts with size := size } }
  else
    none

/-- Phase 1 of `Scanner::scan_directory`, over the entry stream the
directory walk produced (each item is `Ok(path)` or a walk error): drop walk
errors (`filter_map(Result::ok)`), prune with `should_scan_entry` and
classify with `detect_project`.  The result is a plain list — the scan has
no error outcome. -/
def walking_phase (fs : ScanFS) (opts : ScanOptions) (filter : ProjectFilter)
    (walkResults : List (Except String FsPath)) : List Project :=
  let entries := walkResults.filterMap fun r => r.toOption
  (entries.filter (should_scan_entry opts)).filterMap fun path =>
    detect_project fs filter path (fs.isDir path)

/-- Phase 2 of `Scanner::scan_directory` composed after phase 1: size every
detected project in parallel and keep the positive ones. -/
def scan_directory (fs : ScanFS) (opts : ScanOptions) (filter : ProjectFilter)
    (walkResults : List (Except String FsPath)) : List Project :=
  (walking_phase fs opts filter walkResults).filterMap (sizeProject fs)

/-- `Scanner::scan_directory` on an existing root tree: the walk yields every
directory of the tree (all entries `Ok`). -/
def scan_tree (fs : ScanFS) (opts : ScanOptions) (filter : ProjectFilter)
    (base : FsPath) (root : DirTree) : List Project :=
  scan_directory fs opts filter ((walkDirPaths base root).map Except.ok)

/-! ## Filtering (`src/filtering.rs`) -/

/-- Oracle for the filter stage: `modifiedTime p` is the build directory's
last-modified timestamp in seconds (`fs::metadata` followed by
`metadata.modified()`; `none` when either step fails). -/
structure FilterFS where
  modifiedTime : FsPath → Option Int

/-- Seconds per day: `chrono::Duration::days(keep_days)` subtracted from
`Local::now()`. -/
def secondsPerDay : Int := 86400

/-- `is_project_old_enough`: fail open (`true`) when the modification time
cannot be read, otherwise keep only when `modified <= now - keep_days`. -/
def is_project_old_enough (ffs : FilterFS) (now : Int) (project : Project)
    (keep_days : Nat) : Bool :=
  match ffs.modifiedTime project.build_arts.path with
  | none => true
  | some modified => modified ≤ now - secondsPerDay * keep_days

/-- `meets_time_criteria`: `keep_days == 0` disables the age filter. -/
def meets_time_criteria (ffs : FilterFS) (now : Int) (project : Project)
    (keep_days : Nat) : Bool :=
  if keep_days == 0 then true
  else is_project_old_enough ffs now project keep_days

/-- `meets_size_criteria`: `build_arts.size >= min_size`. -/
def meets_size_criteria (project : Project) (min_size : Nat) : Bool :=
  project.build_arts.size ≥ min_size

/-- `filter_projects` after `parse_size` has produced `keep_size_bytes`
(`parse_size("0")` returns 0 through its literal-zero first branch): the two
criteria filters in source order. -/
def filter_projects (ffs : FilterFS) (now : Int) (keep_size_bytes : Nat)
    (keep_days : Nat) (projects : List Project) : List Project :=
  (projects.filter fun project => meets_size_criteria project keep_size_bytes).filter
    fun project => meets_time_criteria ffs now project keep_days

/-! ## Cleaner (`src/cleaner.rs`) -/

/-- `ExecutionOptions` from `src/config/execution.rs`. -/
structure ExecutionOptions where
  dry_run : Bool
  interactive : Bool
  keep_executables : Bool
  use_trash : Bool
deriving DecidableEq, Repr

/-- A destructive removal operation the cleaner can perform on a build
directory: permanent recursive deletion (`fs::remove_dir_all`) or a move to
the platform trash.  The embedding traces which of the two every cleaning
path performs. -/
inductive RemoveOp where
  | removeDirAll (path : FsPath)
  | moveToTrash (path : FsPath)
deriving DecidableEq, Repr

/-- Whether an operation is a trash move. -/
def RemoveOp.isTrashMove : RemoveOp → Bool
  | .moveToTrash _ => true
  | .removeDirAll _ => false

/-- The build-directory removal operations of
`clean_with_executable_preservation`: every branch of
`clean_rust_with_executables`, `clean_go_with_executables` and the
Node/Python fallback ends in `fs::remove_dir_all` of the build directory
(the Rust/Go branches may first copy executables to a temp dir and restore
them afterwards; only the destructive operation on the build tree is traced
here). -/
def clean_with_executable_preservation_removeOps (project : Project) :
    List RemoveOp :=
  match project.kind with
  | .rust => [.removeDirAll project.build_arts.path]
  | .go => [.removeDirAll project.build_arts.path]
  | .node => [.removeDirAll project.build_arts.path]
  | .python => [.removeDirAll project.build_arts.path]

/-- Oracle for the cleaner: existence plus the error-absorbing size walk of
`cleaner.rs`'s own `calculate_directory_size`. -/
structure CleanFS where
  pathExists : FsPath → Bool
  dirSize : FsPath → Nat

/-- The removal operations performed by `clean_single_project`: nothing when
the build directory does not exist; otherwise the preservation variant or a
plain `fs::remove_dir_all`.  The function receives only `keep_executables` —
`ExecutionOptions::use_trash` is never passed to it. -/
def clean_single_project_removeOps (cfs : CleanFS) (project : Project)
    (keep_executables : Bool) : List RemoveOp :=
  let build_dir := project.build_arts.path
  if !cfs.pathExists build_dir then []
  else if keep_executables then
    clean_with_executable_preservation_removeOps project
  else
    [.removeDirAll build_dir]

/-- The removal operations performed over a whole batch by
`Cleaner::clean_projects`, which invokes
`clean_single_project(&project, execution_options.keep_executables)` for
each project. -/
def clean_projects_removeOps (cfs : CleanFS) (execution_options : ExecutionOptions)
    (projects : List Project) : List RemoveOp :=
  projects.flatMap fun project =>
    clean_single_project_removeOps cfs project execution_options.keep_executables

/-- The batch accumulators of `Cleaner::clean_projects`: the mutex-guarded
running byte total and error list, plus the derived success count printed at
the end (`total_projects - errors.len()`). -/
structure CleanSummary where
  totalCleaned : Nat
  errors : List String
  successCount : Nat
deriving Repr

/-- Accumulation step of `Cleaner::clean_projects` for one project:
an `Ok(freed_size)` from `clean_single_project` adds to the byte total, an
`Err(e)` appends a formatted message to the error list.  `outcome` is the
per-project result of `clean_single_project`. -/
def cleanAccumStep (outcome : Project → Except String Nat)
    (acc : Nat × List String) (project : Project) : Nat × List String :=
  match outcome project with
  | .ok freed_size => (acc.1 + freed_size, acc.2)
  | .error e =>
      let d := pathDisplay project.build_arts.path
      (acc.1, acc.2 ++ [s!"Failed to clean {d}: {e}"])

/-- `Cleaner::clean_projects` as a batch summary: fold the accumulation step
over the projects (the parallel loop updates shared accumulators; the byte
total and error multiset are order-independent, folded here in list order),
then report `success_count = total_projects - errors.len()`. -/
def clean_projects_summary (outcome : Project → Except String Nat)
    (projects : List Project) : CleanSummary :=
  let acc := projects.foldl (cleanAccumStep outcome) (0, [])
  { totalCleaned := acc.1
    errors := acc.2
    successCount := projects.length - acc.2.length }

/-! ## Executable preservation (`src/executables.rs`) -/

/-- `PreservedExecutable` from `src/executables.rs`. -/
structure PreservedExecutable where
  source : FsPath
  destination : FsPath
deriving DecidableEq, Repr

/-- `RUST_EXCLUDED_EXTENSIONS` from `src/executables.rs`. -/
def RUST_EXCLUDED_EXTENSIONS : List String :=
  ["d", "rmeta", "rlib", "a", "so", "dylib", "dll", "pdb"]

/-- `Path::extension()` computed from a file name: the part after the last
`.`, none when there is no `.` or the only `.` is the leading character
(computed on the character list so the definition evaluates). -/
def extOfName (name : String) : Option String :=
  let parts := name.data.splitOn '.'
  if parts.length ≥ 2 && !(parts.length == 2 && parts.headD [] == []) then
    some (String.mk (parts.getLastD []))
  else
    none

/-- One entry of `fs::read_dir`: its file name, whether it is a regular
file, and the result of `path.metadata()?` followed by the `is_executable`
permission-bit check (`Err` models a metadata read failure, which
`find_rust_executables` propagates). -/
structure FileEntry where
  name : String
  isFile : Bool
  execCheck : Except String Bool
deriving Repr

/-- One entry of the `walkdir` walk under `build/` in
`preserve_python_executables` (walk errors are already dropped there by
`filter_map(Result::ok)`). -/
structure WalkEntry where
  path : FsPath
  isFile : Bool
deriving Repr

/-- Filesystem oracle for the executable preserver. -/
structure ExecFS where
  isDir : FsPath → Bool
  readDir : FsPath → Except String (List FileEntry)
  createDirAll : FsPath → Except String Unit
  copy : FsPath → FsPath → Except String Unit
  walkFiles : FsPath → List WalkEntry

/-- The entry loop of `find_rust_executables`: skip non-files and excluded
extensions, propagate metadata errors, keep paths passing `is_executable`. -/
def findRustExecsLoop (profile_dir : FsPath) :
    List FileEntry → Except String (List FsPath)
  | [] => .ok []
  | entry :: rest =>
      if !entry.isFile then findRustExecsLoop profile_dir rest
      else if (match extOfName entry.name with
               | some ext => RUST_EXCLUDED_EXTENSIONS.contains ext
               | none => false) then
        findRustExecsLoop profile_dir rest
      else
        match entry.execCheck with
        | .error e => .error e
        | .ok isExec =>
            match findRustExecsLoop profile_dir rest with
            | .error e => .error e
            | .ok tail =>
                .ok (if isExec then (profile_dir ++ [entry.name]) :: tail else tail)

/-- `find_rust_executables`: `fs::read_dir` (failure wrapped with a context
message and propagated) followed by the entry loop. -/
def find_rust_executables (fs : ExecFS) (profile_dir : FsPath) :
    Except String (List FsPath) :=
  match fs.readDir profile_dir with
  | .error _ =>
      let d := pathDisplay profile_dir
      .error s!"Failed to read {d}"
  | .ok entries => findRustExecsLoop profile_dir entries

/-- The copy loop of `preserve_rust_executables`: each `fs::copy` uses `?`,
so the first failure aborts the whole function with its context message and
the records accumulated so far are discarded. -/
def copyRustExecs (fs : ExecFS) (dest_dir : FsPath) :
    List FsPath → Except String (List PreservedExecutable)
  | [] => .ok []
  | exe_path :: rest =>
      let file_name := exe_path.getLastD ""
      let dest_path := dest_dir ++ [file_name]
      match fs.copy exe_path dest_path with
      | .error _ =>
          let a := pathDisplay exe_path
          let b := pathDisplay dest_path
          .error s!"Failed to copy {a} to {b}"
      | .ok _ =>
          match copyRustExecs fs dest_dir rest with
          | .error e => .error e
          | .ok tail => .ok ({ source := exe_path, destination := dest_path } :: tail)

/-- The profile loop of `preserve_rust_executables` over
`["release", "debug"]`: skip absent profile dirs and profiles with no
executables, create the destination dir (failure propagates), then run the
copy loop; records accumulate across profiles in order. -/
def preserveRustProfiles (fs : ExecFS) (target_dir bin_dir : FsPath) :
    List String → Except String (List PreservedExecutable)
  | [] => .ok []
  | profile :: rest =>
      let profile_dir := target_dir ++ [profile]
      if !fs.isDir profile_dir then
        preserveRustProfiles fs target_dir bin_dir rest
      else
        match find_rust_executables fs profile_dir with
        | .error e => .error e
        | .ok executables =>
            if executables.isEmpty then
              preserveRustProfiles fs target_dir bin_dir rest
            else
              let dest_dir := bin_dir ++ [profile]
              match fs.createDirAll dest_dir with
              | .error _ =>
                  let d := pathDisplay dest_dir
                  .error s!"Failed to create {d}"
              | .ok _ =>
                  match copyRustExecs fs dest_dir executables with
                  | .error e => .error e
                  | .ok recs =>
                      match preserveRustProfiles fs target_dir bin_dir rest with
                      | .error e => .error e
                      | .ok tail => .ok (recs ++ tail)

/-- `preserve_rust_executables`. -/
def preserve_rust_executables (fs : ExecFS) (project : Project) :
    Except String (List PreservedExecutable) :=
  preserveRustProfiles fs project.build_arts.path
    (project.root_path ++ ["bin"]) ["release", "debug"]

/-- The `.whl` loop of `preserve_python_executables` over the `dist/`
entries: a matching entry creates `bin/` and copies (either failure
propagates via `?`). -/
def preservePythonWhls (fs : ExecFS) (bin_dir dist_dir : FsPath) :
    List FileEntry → Except String (List PreservedExecutable)
  | [] => .ok []
  | entry :: rest =>
      if extOfName entry.name == some "whl" then
        match fs.createDirAll bin_dir with
        | .error _ =>
            let d := pathDisplay bin_dir
            .error s!"Failed to create {d}"
        | .ok _ =>
            let path := dist_dir ++ [entry.name]
            let dest_path := bin_dir ++ [entry.name]
            match fs.copy path dest_path with
            | .error _ =>
                let a := pathDisplay path
                let b := pathDisplay dest_path
                .error s!"Failed to copy {a} to {b}"
            | .ok _ =>
                match preservePythonWhls fs bin_dir dist_dir rest with
                | .error e => .error e
                | .ok tail => .ok ({ source := path, destination := dest_path } :: tail)
      else preservePythonWhls fs bin_dir dist_dir rest

/-- The `.so`/`.pyd` loop of `preserve_python_executables` over the walk of
`build/`: a matching file creates `bin/` and copies (either failure
propagates via `?`). -/
def preservePythonBuildFiles (fs : ExecFS) (bin_dir : FsPath) :
    List WalkEntry → Except String (List PreservedExecutable)
  | [] => .ok []
  | w :: rest =>
      if !w.isFile then preservePythonBuildFiles fs bin_dir rest
      else
        let is_extension :=
          match extOfName (w.path.getLastD "") with
          | some ext => ext == "so" || ext == "pyd"
          | none => false
        if is_extension then
          match fs.createDirAll bin_dir with
          | .error _ =>
              let d := pathDisplay bin_dir
              .error s!"Failed to create {d}"
          | .ok _ =>
              let dest_path := bin_dir ++ [w.path.getLastD ""]
              match fs.copy w.path dest_path with
              | .error _ =>
                  let a := pathDisplay w.path
                  let b := pathDisplay dest_path
                  .error s!"Failed to copy {a} to {b}"
              | .ok _ =>
                  match preservePythonBuildFiles fs bin_dir rest with
                  | .error e => .error e
                  | .ok tail =>
                      .ok ({ source := w.path, destination := dest_path } :: tail)
        else preservePythonBuildFiles fs bin_dir rest

/-- `preserve_python_executables`: the `dist/` phase (a `read_dir` failure
there is silently skipped — `if let Ok(entries)`) followed by the `build/`
walk phase; a copy or create failure in either phase aborts the whole
function. -/
def preserve_python_executables (fs : ExecFS) (project : Project) :
    Except String (List PreservedExecutable) :=
  let root := project.root_path
  let bin_dir := root ++ ["bin"]
  let dist_dir := root ++ ["dist"]
  let build_dir := root ++ ["build"]
  let whlStep : Except String (List PreservedExecutable) :=
    if fs.isDir dist_dir then
      match fs.readDir dist_dir with
      | .ok entries => preservePythonWhls fs bin_dir dist_dir entries
      | .error _ => .ok []
    else .ok []
  match whlStep with
  | .error e => .error e
  | .ok whls =>
      let extStep : Except String (List PreservedExecutable) :=
        if fs.isDir build_dir then
          preservePythonBuildFiles fs bin_dir (fs.walkFiles build_dir)
        else .ok []
      match extStep with
      | .error e => .error e
      | .ok exts => .ok (whls ++ exts)

/-- `preserve_executables`: dispatch on the project type; Node and Go are
no-ops. -/
def preserve_executables (fs : ExecFS) (project : Project) :
    Except String (List PreservedExecutable) :=
  match project.kind with
  | .rust => preserve_rust_executables fs project
  | .python => preserve_python_executables fs project
  | .node => .ok []
  | .go => .ok []

/-! ## Helper lemmas -/

/-- Splitting a list's length by a boolean predicate. -/
theorem length_filter_split {α : Type} (l : List α) (p : α → Bool) :
    (l.filter p).length + (l.filter fun a => !(p a)).length = l.length := by
  induction l with
  | nil => simp
  | cons a l ih =>
      by_cases h : p a = true <;>
        simp [List.filter_cons, h] <;> omega

/-- The accumulator fold of `Cleaner::clean_projects`: the byte total grows
by the sum of the `Ok` outcomes and the error list grows by one entry per
`Err` outcome. -/
theorem cleanAccum_foldl (outcome : Project → Except String Nat)
    (projects : List Project) (c0 : Nat) (es0 : List String) :
    (projects.foldl (cleanAccumStep outcome) (c0, es0)).1
        = c0 + (projects.filterMap fun p => (outcome p).toOption).sum ∧
    (projects.foldl (cleanAccumStep outcome) (c0, es0)).2.length
        = es0.length + (projects.filter fun p => !(outcome p).toOption.isSome).length := by
  induction projects generalizing c0 es0 with
  | nil => simp
  | cons p ps ih =>
      simp only [List.foldl_cons, cleanAccumStep]
      cases h : outcome p with
      | ok v =>
          have := ih (c0 + v) es0
          simp [h, Except.toOption, this.1, this.2]
          omega
      | error e =>
          have := ih c0 (es0 ++ [s!"Failed to clean {pathDisplay p.build_arts.path}: {e}"])
          simp [h, Except.toOption, this.1, this.2]
          omega

/-- A detected Rust project's root is the examined directory. -/
theorem detect_rust_project_root (fs : ScanFS) (path : FsPath) (p : Project) :
    detect_rust_project fs path = some p → p.root_path = path := by
  intro h
  simp only [detect_rust_project] at h
  split at h
  · injection h with h
    subst h
    rfl
  · exact absurd h (by simp)

/-- A detected Node project's root is the examined directory. -/
theorem detect_node_project_root (fs : ScanFS) (path : FsPath) (p : Project) :
    detect_node_project fs path = some p → p.root_path = path := by
  intro h
  simp only [detect_node_project] at h
  split at h
  · injection h with h
    subst h
    rfl
  · exact absurd h (by simp)

/-- A detected Python project's root is the examined directory. -/
theorem detect_python_project_root (fs : ScanFS) (path : FsPath) (p : Project) :
    detect_python_project fs path = some p → p.root_path = path := by
  intro h
  simp only [detect_python_project] at h
  split at h
  · exact absurd h (by simp)
  · split at h
    · injection h with h
      subst h
      rfl
    · exact absurd h (by simp)

/-- A detected Go project's root is the examined directory. -/
theorem detect_go_project_root (fs : ScanFS) (path : FsPath) (p : Project) :
    detect_go_project fs path = some p → p.root_path = path := by
  intro h
  simp only [detect_go_project] at h
  split at h
  · injection h with h
    subst h
    rfl
  · exact absurd h (by simp)

/-- A successfully detected project's root is the examined directory. -/
theorem detect_project_root (fs : ScanFS) (filter : ProjectFilter)
    (path : FsPath) (entryIsDir : Bool) (p : Project) :
    detect_project fs filter path entryIsDir = some p → p.root_path = path := by
  intro h
  simp only [detect_project] at h
  split at h
  · exact absurd h (by simp)
  · split at h
    next project heq =>
      injection h with h
      subst h
      split at heq
      · exact detect_rust_project_root fs path _ heq
      · exact absurd heq (by simp)
    next heq1 =>
      split at h
      next project heq =>
        injection h with h
        subst h
        split at heq
        · exact detect_node_project_root fs path _ heq
        · exact absurd heq (by simp)
      next heq2 =>
        split at h
        next project heq =>
          injection h with h
          subst h
          split at heq
          · exact detect_python_project_root fs path _ heq
          · exact absurd heq (by simp)
        next heq3 =>
          split at h
          · exact detect_go_project_root fs path _ h
          · exact absurd h (by simp)

/-- Unfolding of the per-project sizing step. -/
theorem sizeProject_eq_some (fs : ScanFS) (q p : Project) :
    sizeProject fs q = some p ↔
      0 < fs.buildDirSize q.build_arts.path ∧
        p = { q with build_arts :=
                { q.build_arts with size := fs.buildDirSize q.build_arts.path } } := by
  simp only [sizeProject]
  split
  next hpos =>
    simp only [Option.some.injEq]
    constructor
    · intro h
      exact ⟨hpos, h.symm⟩
    · intro h
      exact h.2.symm
  next hpos =>
    constructor
    · intro h
      exact absurd h (by simp)
    · rintro ⟨h1, _⟩
      omega

/-- Membership characterization of the skip-list rule: whole-component
equality against some component of the path. -/
theorem is_path_in_skip_list_iff (skip : List String) (path : FsPath) :
    is_path_in_skip_list skip path = true ↔ ∃ s ∈ skip, ∃ c ∈ path, c = s := by
  simp [is_path_in_skip_list, List.any_eq_true, beq_iff_eq]

/-- Membership characterization of the `node_modules` ancestry rule. -/
theorem hasNodeModulesAncestor_iff (path : FsPath) :
    hasNodeModulesAncestor path = true ↔ "node_modules" ∈ path := by
  simp only [hasNodeModulesAncestor, List.any_eq_true, beq_iff_eq]
  constructor
  · rintro ⟨c, hc, rfl⟩; exact hc
  · intro h; exact ⟨_, h, rfl⟩

/-! ## C1: batch cleaning outcome accounting -/

/-- C1: for every batch submitted to `Cleaner::clean_projects`, each project
yields exactly one outcome — the reported success count equals the number of
projects whose `clean_single_project` result was `Ok`, the recorded failures
equal the number of `Err` results, the success count plus the failure count
equals the batch size, and the reported total of bytes freed is the sum of
exactly the successful projects' freed sizes.  One project's failure thus
never suppresses the accounting of any other project. -/
theorem clean_projects_batch_invariants (outcome : Project → Except String Nat)
    (projects : List Project) :
    (clean_projects_summary outcome projects).successCount
        = (projects.filter fun p => (outcome p).toOption.isSome).length ∧
    (clean_projects_summary outcome projects).errors.length
        = (projects.filter fun p => !(outcome p).toOption.isSome).length ∧
    (clean_projects_summary outcome projects).successCount
        + (clean_projects_summary outcome projects).errors.length
        = projects.length ∧
    (clean_projects_summary outcome projects).totalCleaned
        = (projects.filterMap fun p => (outcome p).toOption).sum := by
  have hacc := cleanAccum_foldl outcome projects 0 []
  have hsplit := length_filter_split projects (fun p => (outcome p).toOption.isSome)
  unfold clean_projects_summary
  simp only [List.length_nil, Nat.zero_add] at hacc
  refine ⟨?_, ?_, ?_, ?_⟩ <;> simp only [hacc.1, hacc.2] <;> omega

/-! ## C4: filter predicate and identity -/

/-- C4: the filter keeps a project exactly when its recorded size reaches
the threshold and either the age filter is disabled (`keep_days = 0`) or the
build directory's modification time is at or before `now - keep_days` — an
unreadable modification time fails open (project kept).  With threshold 0
and `keep_days = 0` the filter is the identity on the input list. -/
theorem filter_projects_spec (ffs : FilterFS) (now : Int)
    (keep_size_bytes keep_days : Nat) (projects : List Project) :
    (∀ p : Project,
        p ∈ filter_projects ffs now keep_size_bytes keep_days projects ↔
          p ∈ projects ∧ keep_size_bytes ≤ p.build_arts.size ∧
            (keep_days = 0 ∨
              match ffs.modifiedTime p.build_arts.path with
              | none => True
              | some m => m ≤ now - secondsPerDay * keep_days)) ∧
    filter_projects ffs now 0 0 projects = projects := by
  constructor
  · intro p
    unfold filter_projects
    rw [List.mem_filter, List.mem_filter]
    unfold meets_size_criteria meets_time_criteria is_project_old_enough
    by_cases hd : keep_days = 0
    · simp [hd] <;> tauto
    · have hd' : (keep_days == 0) = false := by simpa using hd
      cases hm : ffs.modifiedTime p.build_arts.path with
      | none => simp [hd', hm, hd] <;> tauto
      | some m => simp [hd', hm, hd] <;> tauto
  · unfold filter_projects
    rw [List.filter_eq_self.mpr, List.filter_eq_self.mpr]
    · intro p _
      simp [meets_size_criteria]
    · intro p _
      simp [meets_time_criteria]

/-! ## C5: size-zero projects are dropped after sizing -/

/-- C5: everything the scan returns carries the size computed for its build
directory, strictly positive; and whenever a detected project's build
directory computes to zero bytes, no project with that build path appears in
the scan result. -/
theorem scan_sizing_drops_zero (fs : ScanFS) (opts : ScanOptions)
    (filter : ProjectFilter) (walkResults : List (Except String FsPath)) :
    (∀ p ∈ scan_directory fs opts filter walkResults,
        0 < p.build_arts.size ∧
          p.build_arts.size = fs.buildDirSize p.build_arts.path) ∧
    (∀ q ∈ walking_phase fs opts filter walkResults,
        fs.buildDirSize q.build_arts.path = 0 →
          ∀ p ∈ scan_directory fs opts filter walkResults,
            p.build_arts.path ≠ q.build_arts.path) := by
  have key : ∀ p ∈ scan_directory fs opts filter walkResults,
      0 < p.build_arts.size ∧
        p.build_arts.size = fs.buildDirSize p.build_arts.path := by
    intro p hp
    simp only [scan_directory, List.mem_filterMap] at hp
    obtain ⟨q, hq, hsz⟩ := hp
    rw [sizeProject_eq_some] at hsz
    obtain ⟨hpos, rfl⟩ := hsz
    exact ⟨hpos, rfl⟩
  refine ⟨key, ?_⟩
  intro q hq h0 p hp hpath
  obtain ⟨h1, h2⟩ := key p hp
  rw [hpath, h0] at h2
  omega

/-- Scan options with an empty skip list (used by concrete scenarios). -/
def noSkipOpts : ScanOptions := { verbose := false, threads := 1, skip := [] }

/-- A filesystem holding a single Rust project at `a` whose `target/` holds
5 bytes. -/
def fsRustOnly : ScanFS where
  pathExists := fun p => p == ["a", "Cargo.toml"] || p == ["a", "target"]
  isDir := fun _ => true
  dirSizeResult := fun _ => none
  buildDirSize := fun p => if p == ["a", "target"] then 5 else 0
  rustName := fun _ => none
  nodeName := fun _ => none
  pythonName := fun _ => none
  goName := fun _ => none

/-- The sized project the scan of `fsRustOnly` produces. -/
def projA : Project :=
  { kind := .rust, root_path := ["a"]
    build_arts := { path := ["a", "target"], size := 5 }, name := none }

/-- Witness for C5 at a concrete scan member. -/
theorem scan_sizing_drops_zero_witness :
    0 < projA.build_arts.size ∧
      projA.build_arts.size = fsRustOnly.buildDirSize projA.build_arts.path :=
  (scan_sizing_drops_zero fsRustOnly noSkipOpts .all [Except.ok ["a"]]).1
    projA (by
      have h : scan_directory fsRustOnly noSkipOpts .all [Except.ok ["a"]]
          = [projA] := rfl
      rw [h]
      exact List.mem_singleton.mpr rfl)

/-! ## C3: fixed classification priority Rust → Node → Python → Go -/

/-- C3: under the all-ecosystems filter the four detection rules are tried
in the fixed order Rust, Node, Python, Go and the first satisfied rule wins;
in particular a directory carrying both the Rust marker set and the Node
marker set is classified Rust and never Node. -/
theorem detect_priority_order (fs : ScanFS) (path : FsPath) :
    ((detect_rust_project fs path).isSome = true →
        detect_project fs .all path true = detect_rust_project fs path) ∧
    (detect_rust_project fs path = none →
        (detect_node_project fs path).isSome = true →
        detect_project fs .all path true = detect_node_project fs path) ∧
    (detect_rust_project fs path = none →
        detect_node_project fs path = none →
        (detect_python_project fs path).isSome = true →
        detect_project fs .all path true = detect_python_project fs path) ∧
    (detect_rust_project fs path = none →
        detect_node_project fs path = none →
        detect_python_project fs path = none →
        detect_project fs .all path true = detect_go_project fs path) ∧
    (fs.pathExists (path ++ ["Cargo.toml"]) = true →
        fs.pathExists (path ++ ["target"]) = true →
        (detect_project fs .all path true).map Project.kind = some .rust ∧
        (detect_project fs .all path true).map Project.kind ≠ some .node) := by
  refine ⟨?_, ?_, ?_, ?_, ?_⟩
  · intro h
    obtain ⟨pr, hpr⟩ := Option.isSome_iff_exists.mp h
    simp [detect_project, hpr]
  · intro h1 h2
    obtain ⟨pr, hpr⟩ := Option.isSome_iff_exists.mp h2
    simp [detect_project, h1, hpr]
  · intro h1 h2 h3
    obtain ⟨pr, hpr⟩ := Option.isSome_iff_exists.mp h3
    simp [detect_project, h1, h2, hpr]
  · intro h1 h2 h3
    simp [detect_project, h1, h2, h3]
  · intro hc ht
    have hr : detect_rust_project fs path =
        some { kind := .rust, root_path := path
               build_arts := { path := path ++ ["target"], size := 0 }
               name := fs.rustName (path ++ ["Cargo.toml"]) } := by
      simp [detect_rust_project, hc, ht]
    constructor
    · simp [detect_project, hr]
    · simp [detect_project, hr]

/-- A filesystem where directory `p` carries both the full Rust marker set
and the full Node marker set. -/
def fsRustAndNode : ScanFS where
  pathExists := fun p =>
    p == ["p", "Cargo.toml"] || p == ["p", "target"] ||
      p == ["p", "package.json"] || p == ["p", "node_modules"]
  isDir := fun _ => true
  dirSizeResult := fun _ => none
  buildDirSize := fun _ => 0
  rustName := fun _ => none
  nodeName := fun _ => none
  pythonName := fun _ => none
  goName := fun _ => none

/-- Witness for C3: with both marker sets present the directory is
classified Rust, not Node. -/
theorem detect_priority_order_witness :
    (detect_project fsRustAndNode .all ["p"] true).map Project.kind
        = some .rust ∧
      (detect_project fsRustAndNode .all ["p"] true).map Project.kind
        ≠ some .node :=
  (detect_priority_order fsRustAndNode ["p"]).2.2.2.2 (by decide) (by decide)

/-! ## C7: skip patterns match whole components, not substrings -/

/-- C7 counterexample: the pattern `foo` occurs as a substring of the path
component `foobar`, yet the skip rule does not exclude the entry — matching
is whole-component equality, not substring containment. -/
theorem skip_substring_counterexample :
    is_path_in_skip_list ["foo"] ["foobar"] = false ∧
    (∃ pre post : String, "foobar" = pre ++ "foo" ++ post) :=
  ⟨by decide, ⟨"", "bar", by decide⟩⟩

/-- C7 (amended): the skip rule excludes an entry iff some skip pattern is
equal, as a whole string, to some component of the entry's path. -/
theorem skip_list_whole_component_match (skip : List String) (path : FsPath) :
    is_path_in_skip_list skip path = true ↔ ∃ s ∈ skip, ∃ c ∈ path, c = s :=
  is_path_in_skip_list_iff skip path

/-! ## C8: scan failure semantics -/

/-- Re-wrapping the surviving entries of a walk stream in `Ok` and filtering
again recovers the same entries. -/
theorem filterMap_toOption_map_ok (l : List FsPath) :
    ((l.map Except.ok).filterMap fun r : Except String FsPath => r.toOption)
      = l := by
  induction l with
  | nil => rfl
  | cons a l ih =>
      simp only [List.map_cons, List.filterMap_cons, Except.toOption] at ih ⊢
      rw [ih]

/-- A filesystem oracle answering `false`/`none`/`0` everywhere. -/
def fsBare : ScanFS where
  pathExists := fun _ => false
  isDir := fun _ => false
  dirSizeResult := fun _ => none
  buildDirSize := fun _ => 0
  rustName := fun _ => none
  nodeName := fun _ => none
  pythonName := fun _ => none
  goName := fun _ => none

/-- C8 counterexample: when the root is unreadable or nonexistent the walk
stream holds only an error; the scan absorbs it and completes normally with
the empty project list — the same value as scanning an empty stream — so no
error reaches the caller (`scan_directory` has no error outcome at all, and
`inner_main` treats the empty list as a success, printing "No development
directories found!"). -/
theorem scan_root_error_not_fatal_counterexample :
    scan_directory fsBare noSkipOpts .all [Except.error "permission denied"]
        = ([] : List Project) ∧
    scan_directory fsBare noSkipOpts .all [Except.error "permission denied"]
        = scan_directory fsBare noSkipOpts .all [] := by
  constructor <;> rfl

/-- C8 (amended): every walk error — the root error included — is dropped by
`filter_map(Result::ok)` before the scan proceeds: scanning any stream gives
exactly the scan of its successful entries, so no filesystem read error ever
aborts the scan or is surfaced as an error to the caller. -/
theorem scan_absorbs_all_walk_errors (fs : ScanFS) (opts : ScanOptions)
    (filter : ProjectFilter) (walkResults : List (Except String FsPath)) :
    scan_directory fs opts filter walkResults =
      scan_directory fs opts filter
        ((walkResults.filterMap fun r => r.toOption).map Except.ok) := by
  simp only [scan_directory, walking_phase, filterMap_toOption_map_ok]

/-! ## C6: pruning versus traversal -/

/-- Filesystem for the pruning counterexample: a Rust project sits in
`root/.hidden-parent/visible-child` while `.hidden-parent` itself is
excluded by the hidden-name rule. -/
def fsHidden : ScanFS where
  pathExists := fun p =>
    p == ["root", ".hidden-parent", "visible-child", "Cargo.toml"] ||
      p == ["root", ".hidden-parent", "visible-child", "target"]
  isDir := fun _ => true
  dirSizeResult := fun _ => none
  buildDirSize := fun p =>
    if p == ["root", ".hidden-parent", "visible-child", "target"] then 7
    else 0
  rustName := fun _ => none
  nodeName := fun _ => none
  pythonName := fun _ => none
  goName := fun _ => none

/-- The directory tree of the pruning counterexample. -/
def hiddenTree : DirTree :=
  .mk "root" [.mk ".hidden-parent" [.mk "visible-child" []]]

/-- C6 counterexample: `.hidden-parent` is excluded by the pruner, yet the
walk still descends into it and the project in `visible-child`, a directory
strictly beneath the excluded one, is classified and returned by the scan
(the repository's own test asserts exactly this behavior). -/
theorem pruning_no_subtree_counterexample :
    should_scan_entry noSkipOpts ["root", ".hidden-parent"] = false ∧
    scan_tree fsHidden noSkipOpts .all [] hiddenTree =
      [{ kind := .rust
         root_path := ["root", ".hidden-parent", "visible-child"]
         build_arts :=
           { path := ["root", ".hidden-parent", "visible-child", "target"]
             size := 7 }
         name := none }] := by
  constructor <;> rfl

/-- C6 (amended): pruning is evaluated before classification, so an excluded
directory is never itself classified — every project the scan returns is
rooted at an entry passing `should_scan_entry`; and exclusions that depend
only on inherited path components (the skip-pattern rule and the
`node_modules` ancestry rule) do extend to every descendant.  Exclusion by
the hidden-name or fixed-set rules does not prevent descendants from being
visited and classified, as the counterexample shows. -/
theorem pruning_before_classification (fs : ScanFS) (opts : ScanOptions)
    (filter : ProjectFilter) (walkResults : List (Except String FsPath)) :
    (∀ p ∈ scan_directory fs opts filter walkResults,
        should_scan_entry opts p.root_path = true) ∧
    (∀ path : FsPath,
        (is_path_in_skip_list opts.skip path = true ∨
            hasNodeModulesAncestor path = true) →
        ∀ rest : FsPath, should_scan_entry opts (path ++ rest) = false) := by
  constructor
  · intro p hp
    simp only [scan_directory, List.mem_filterMap] at hp
    obtain ⟨q, hq, hsz⟩ := hp
    rw [sizeProject_eq_some] at hsz
    obtain ⟨-, rfl⟩ := hsz
    simp only [walking_phase, List.mem_filterMap, List.mem_filter] at hq
    obtain ⟨path, ⟨_, hkeep⟩, hdet⟩ := hq
    have hroot := detect_project_root fs filter path _ q hdet
    show should_scan_entry opts q.root_path = true
    rw [hroot]
    exact hkeep
  · intro path hrule rest
    unfold should_scan_entry
    rcases hrule with hskip | hnm
    · have hs : is_path_in_skip_list opts.skip (path ++ rest) = true := by
        rw [is_path_in_skip_list_iff] at hskip ⊢
        obtain ⟨s, hsmem, c, hcmem, hcs⟩ := hskip
        exact ⟨s, hsmem, c, List.mem_append_left _ hcmem, hcs⟩
      simp [hs]
    · have hn : hasNodeModulesAncestor (path ++ rest) = true := by
        rw [hasNodeModulesAncestor_iff] at hnm ⊢
        exact List.mem_append_left _ hnm
      by_cases hs : is_path_in_skip_list opts.skip (path ++ rest) = true
      · simp [hs]
      · simp [hs, hn]

/-- Witness for C6 (amended): the `node_modules` ancestry exclusion is
hereditary. -/
theorem pruning_before_classification_witness :
    should_scan_entry noSkipOpts (["node_modules"] ++ ["x"]) = false :=
  (pruning_before_classification fsBare noSkipOpts .all []).2
    ["node_modules"] (Or.inr (by decide)) ["x"]

/-! ## C2: the trash policy is never consulted by the cleaner -/

/-- Execution options selecting trash mode. -/
def optsTrash : ExecutionOptions :=
  { dry_run := false, interactive := false
    keep_executables := false, use_trash := true }

/-- A project whose build directory exists, for the trash scenario. -/
def projTrash : Project :=
  { kind := .rust, root_path := ["p"]
    build_arts := { path := ["p", "target"], size := 100 }, name := none }

/-- Cleaner filesystem for the trash scenario. -/
def cfsTrash : CleanFS where
  pathExists := fun p => p == ["p", "target"]
  dirSize := fun _ => 100

/-- C2 (code-bug evidence): with `use_trash = true` the cleaner still
removes the build directory by permanent recursive deletion
(`fs::remove_dir_all`); no cleaning path ever performs a trash move for any
options, because `Cleaner::clean_projects` forwards only
`execution_options.keep_executables` to `clean_single_project` and the
`use_trash` flag is read by no removal code, contradicting its own
documentation in `src/config/execution.rs`. -/
theorem trash_policy_never_consulted :
    optsTrash.use_trash = true ∧
    clean_projects_removeOps cfsTrash optsTrash [projTrash]
        = [RemoveOp.removeDirAll ["p", "target"]] ∧
    ∀ (cfs : CleanFS) (opts : ExecutionOptions) (projects : List Project),
      (clean_projects_removeOps cfs opts projects).any RemoveOp.isTrashMove
        = false := by
  refine ⟨rfl, rfl, ?_⟩
  intro cfs opts projects
  rw [List.any_eq_false]
  intro op hop
  simp only [clean_projects_removeOps, List.mem_flatMap] at hop
  obtain ⟨p, _, hop⟩ := hop
  simp only [clean_single_project_removeOps,
    clean_with_executable_preservation_removeOps] at hop
  split at hop
  · simp at hop
  · split at hop
    · cases hk : p.kind <;> rw [hk] at hop <;> simp at hop <;>
        simp [hop, RemoveOp.isTrashMove]
    · simp at hop
      simp [hop, RemoveOp.isTrashMove]

/-! ## C10: Python candidate selection -/

/-- The effective size a candidate directory contributes to the selection
loop of `detect_python_project`: its computed size when it exists, is a
directory and its size computes to `Ok`; 0 otherwise (a candidate whose
size is 0 or cannot be computed never updates the fold, since an update
requires `size > largest_size` and `largest_size` starts at 0). -/
def candSize (fs : ScanFS) (path : FsPath) (d : String) : Nat :=
  match (if fs.pathExists (path ++ [d]) && fs.isDir (path ++ [d]) then
           fs.dirSizeResult (path ++ [d])
         else none) with
  | some size => size
  | none => 0

/-- The selection fold ignores candidates whose effective size does not
beat the accumulator. -/
theorem pythonFoldDirs_const (fs : ScanFS) (path : FsPath)
    (ds : List String) (acc : Option FsPath × Nat)
    (h : ∀ d ∈ ds, candSize fs path d ≤ acc.2) :
    pythonFoldDirs fs path ds acc = acc := by
  induction ds generalizing acc with
  | nil => rfl
  | cons d ds ih =>
      have hd := h d (List.mem_cons_self d ds)
      simp only [pythonFoldDirs]
      cases hm : (if fs.pathExists (path ++ [d]) && fs.isDir (path ++ [d]) then
                    fs.dirSizeResult (path ++ [d])
                  else none) with
      | none =>
          exact ih acc fun x hx => h x (List.mem_cons_of_mem d hx)
      | some size =>
          have hsz : candSize fs path d = size := by
            unfold candSize
            rw [hm]
          show pythonFoldDirs fs path ds
              (if acc.2 < size then (some (path ++ [d]), size) else acc) = acc
          rw [if_neg (by omega)]
          exact ih acc fun x hx => h x (List.mem_cons_of_mem d hx)

/-- The selection fold picks the first candidate attaining the maximal
effective size, provided that size beats the accumulator: all earlier
candidates are strictly smaller, all later ones no larger. -/
theorem pythonFoldDirs_firstmax (fs : ScanFS) (path : FsPath)
    (l₁ l₂ : List String) (d : String) (acc : Option FsPath × Nat)
    (hacc : acc.2 < candSize fs path d)
    (hgt : ∀ x ∈ l₁, candSize fs path x < candSize fs path d)
    (hge : ∀ x ∈ l₂, candSize fs path x ≤ candSize fs path d) :
    pythonFoldDirs fs path (l₁ ++ d :: l₂) acc
      = (some (path ++ [d]), candSize fs path d) := by
  induction l₁ generalizing acc with
  | nil =>
      simp only [List.nil_append, pythonFoldDirs]
      cases hm : (if fs.pathExists (path ++ [d]) && fs.isDir (path ++ [d]) then
                    fs.dirSizeResult (path ++ [d])
                  else none) with
      | none =>
          have hz : candSize fs path d = 0 := by
            unfold candSize
            rw [hm]
          rw [hz] at hacc
          exact absurd hacc (Nat.not_lt_zero _)
      | some size =>
          have hsz : candSize fs path d = size := by
            unfold candSize
            rw [hm]
          show pythonFoldDirs fs path l₂
              (if acc.2 < size then (some (path ++ [d]), size) else acc) = _
          rw [if_pos (by omega)]
          rw [pythonFoldDirs_const fs path l₂ (some (path ++ [d]), size)
            (fun x hx => by have := hge x hx; simpa [hsz] using this)]
          rw [hsz]
  | cons x l₁ ih =>
      have hx := hgt x (List.mem_cons_self x l₁)
      simp only [List.cons_append, pythonFoldDirs]
      cases hm : (if fs.pathExists (path ++ [x]) && fs.isDir (path ++ [x]) then
                    fs.dirSizeResult (path ++ [x])
                  else none) with
      | none =>
          exact ih acc hacc fun y hy => hgt y (List.mem_cons_of_mem x hy)
      | some size =>
          have hsz : candSize fs path x = size := by
            unfold candSize
            rw [hm]
          show pythonFoldDirs fs path (l₁ ++ d :: l₂)
              (if acc.2 < size then (some (path ++ [x]), size) else acc) = _
          by_cases hlt : acc.2 < size
          · rw [if_pos hlt]
            exact ih (some (path ++ [x]), size) (by simp; omega)
              fun y hy => hgt y (List.mem_cons_of_mem x hy)
          · rw [if_neg hlt]
            exact ih acc hacc fun y hy => hgt y (List.mem_cons_of_mem x hy)

/-- Filesystem for the Python counterexample: `requirements.txt` and an
empty `__pycache__` directory are present in `p`. -/
def fsPyZero : ScanFS where
  pathExists := fun p =>
    p == ["p", "requirements.txt"] || p == ["p", "__pycache__"]
  isDir := fun p => p == ["p", "__pycache__"]
  dirSizeResult := fun p =>
    if p == ["p", "__pycache__"] then some 0 else none
  buildDirSize := fun _ => 0
  rustName := fun _ => none
  nodeName := fun _ => none
  pythonName := fun _ => none
  goName := fun _ => none

/-- C10 counterexample: a directory with a config marker and a present
candidate cache directory — the claimed Python detection rule is satisfied —
is nevertheless not classified at all when every present candidate holds 0
bytes, since the selection loop only picks candidates of strictly positive
size. -/
theorem python_empty_candidate_counterexample :
    fsPyZero.pathExists ["p", "requirements.txt"] = true ∧
    fsPyZero.pathExists ["p", "__pycache__"] = true ∧
    fsPyZero.isDir ["p", "__pycache__"] = true ∧
    detect_python_project fsPyZero ["p"] = none :=
  ⟨rfl, rfl, rfl, rfl⟩

/-- C10 (amended): when a config marker is present and some candidate has a
strictly positive effective size, the classified artifact is the first
candidate, in the fixed enumeration order, attaining the maximal effective
size — ties go to the earlier candidate, candidates whose size is zero or
cannot be computed count as absent, and when no candidate has positive
effective size the directory is not classified as Python at all. -/
theorem detect_python_largest (fs : ScanFS) (path : FsPath)
    (l₁ l₂ : List String) (d : String)
    (hsplit : build_dirs = l₁ ++ d :: l₂)
    (hconfig : (config_files.any fun file => fs.pathExists (path ++ [file]))
        = true)
    (hpos : 0 < candSize fs path d)
    (hgt : ∀ x ∈ l₁, candSize fs path x < candSize fs path d)
    (hge : ∀ x ∈ l₂, candSize fs path x ≤ candSize fs path d) :
    detect_python_project fs path =
      some { kind := .python, root_path := path
             build_arts := { path := path ++ [d], size := 0 }
             name := fs.pythonName path } := by
  simp only [detect_python_project, hconfig, Bool.not_true, Bool.false_eq_true,
    if_false]
  rw [hsplit,
    pythonFoldDirs_firstmax fs path l₁ l₂ d (none, 0) (by simpa) hgt hge]

/-- Filesystem for the C10 witness: `requirements.txt` present, `venv` and
`build` both present with 5 computed bytes each (a tie), everything else
absent. -/
def fsPyTie : ScanFS where
  pathExists := fun p =>
    p == ["p", "requirements.txt"] || p == ["p", "venv"] || p == ["p", "build"]
  isDir := fun p => p == ["p", "venv"] || p == ["p", "build"]
  dirSizeResult := fun p =>
    if p == ["p", "venv"] then some 5
    else if p == ["p", "build"] then some 5
    else none
  buildDirSize := fun _ => 0
  rustName := fun _ => none
  nodeName := fun _ => none
  pythonName := fun _ => none
  goName := fun _ => none

/-- Witness for C10 (amended): with `venv` and `build` tied at 5 bytes the
earlier candidate `venv` is selected. -/
theorem detect_python_largest_witness :
    detect_python_project fsPyTie ["p"] =
      some { kind := .python, root_path := ["p"]
             build_arts := { path := ["p", "venv"], size := 0 }
             name := none } :=
  detect_python_largest fsPyTie ["p"] ["__pycache__", ".pytest_cache"]
    [".venv", "build", "dist", ".eggs", ".tox", ".coverage"] "venv"
    (by rfl) (by rfl) (by decide) (by decide) (by decide)

/-! ## C9: a copy failure aborts preservation -/

/-- If the Rust copy loop returned `Ok`, every copy it was given succeeded. -/
theorem copyRustExecs_ok_all (fs : ExecFS) (dest_dir : FsPath)
    (exes : List FsPath) (recs : List PreservedExecutable)
    (h : copyRustExecs fs dest_dir exes = .ok recs) :
    ∀ exe ∈ exes, (fs.copy exe (dest_dir ++ [exe.getLastD ""])).isOk = true := by
  induction exes generalizing recs with
  | nil => intro exe hx; cases hx
  | cons e es ih =>
      intro exe hx
      simp only [copyRustExecs] at h
      cases hc : fs.copy e (dest_dir ++ [e.getLastD ""]) with
      | error err => rw [hc] at h; simp at h
      | ok u =>
          rw [hc] at h
          rcases List.mem_cons.mp hx with rfl | hmem
          · rw [hc]; rfl
          · cases hrec : copyRustExecs fs dest_dir es with
            | error err => rw [hrec] at h; simp at h
            | ok tail => exact ih tail hrec exe hmem

/-- If the Rust profile loop returned `Ok`, then in every processed profile
directory (present, with a successfully listed set of executables) every
candidate's copy succeeded. -/
theorem preserveRustProfiles_ok_all (fs : ExecFS) (target_dir bin_dir : FsPath)
    (profiles : List String) (recs : List PreservedExecutable)
    (h : preserveRustProfiles fs target_dir bin_dir profiles = .ok recs) :
    ∀ profile ∈ profiles, fs.isDir (target_dir ++ [profile]) = true →
      ∀ exes, find_rust_executables fs (target_dir ++ [profile]) = .ok exes →
        ∀ exe ∈ exes,
          (fs.copy exe ((bin_dir ++ [profile]) ++ [exe.getLastD ""])).isOk
            = true := by
  induction profiles generalizing recs with
  | nil => intro profile hp; cases hp
  | cons p ps ih =>
      intro profile hp hdir exes hfind exe hexe
      simp only [preserveRustProfiles] at h
      split at h
      next hskip =>
        rcases List.mem_cons.mp hp with rfl | hmem
        · rw [hdir] at hskip; simp at hskip
        · exact ih recs h profile hmem hdir exes hfind exe hexe
      next hentered =>
        split at h
        next e heq => exact absurd h (by simp)
        next executables heq =>
          split at h
          next hempt =>
              rcases List.mem_cons.mp hp with rfl | hmem
              · rw [heq] at hfind
                injection hfind with hfind
                rw [hfind] at hempt
                cases exes with
                | nil => cases hexe
                | cons a as => simp at hempt
              · exact ih recs h profile hmem hdir exes hfind exe hexe
          next hnempt =>
            split at h
            next heq2 => exact absurd h (by simp)
            next u heq2 =>
              split at h
              next e heq3 => exact absurd h (by simp)
              next recs1 heq3 =>
                split at h
                next e heq4 => exact absurd h (by simp)
                next tail heq4 =>
                  rcases List.mem_cons.mp hp with rfl | hmem
                  · rw [heq] at hfind
                    injection hfind with hfind
                    rw [hfind] at heq3
                    exact copyRustExecs_ok_all fs _ exes recs1 heq3 exe hexe
                  · exact ih tail heq4 profile hmem hdir exes hfind exe hexe

/-- If the `.whl` loop returned `Ok`, every matching entry's copy
succeeded. -/
theorem preservePythonWhls_ok_all (fs : ExecFS) (bin_dir dist_dir : FsPath)
    (entries : List FileEntry) (recs : List PreservedExecutable)
    (h : preservePythonWhls fs bin_dir dist_dir entries = .ok recs) :
    ∀ e ∈ entries, extOfName e.name = some "whl" →
      (fs.copy (dist_dir ++ [e.name]) (bin_dir ++ [e.name])).isOk = true := by
  induction entries generalizing recs with
  | nil => intro e he; cases he
  | cons a as ih =>
      intro e he hwhl
      simp only [preservePythonWhls] at h
      split at h
      next hmatch =>
        split at h
        next heq => exact absurd h (by simp)
        next u heq =>
          cases hc : fs.copy (dist_dir ++ [a.name]) (bin_dir ++ [a.name]) with
          | error err => rw [hc] at h; simp at h
          | ok u2 =>
              rw [hc] at h
              rcases List.mem_cons.mp he with rfl | hmem
              · rw [hc]; rfl
              · cases hrec : preservePythonWhls fs bin_dir dist_dir as with
                | error err => rw [hrec] at h; simp at h
                | ok tail => exact ih tail hrec e hmem hwhl
      next hmatch =>
        rcases List.mem_cons.mp he with rfl | hmem
        · rw [hwhl] at hmatch; simp at hmatch
        · exact ih recs h e hmem hwhl

/-- If the `build/` walk loop returned `Ok`, every matching file's copy
succeeded. -/
theorem preservePythonBuildFiles_ok_all (fs : ExecFS) (bin_dir : FsPath)
    (ws : List WalkEntry) (recs : List PreservedExecutable)
    (h : preservePythonBuildFiles fs bin_dir ws = .ok recs) :
    ∀ w ∈ ws, w.isFile = true →
      (match extOfName (w.path.getLastD "") with
       | some ext => ext == "so" || ext == "pyd"
       | none => false) = true →
      (fs.copy w.path (bin_dir ++ [w.path.getLastD ""])).isOk = true := by
  induction ws generalizing recs with
  | nil => intro w hw; cases hw
  | cons a as ih =>
      intro w hw hfile hext
      simp only [preservePythonBuildFiles] at h
      split at h
      next hskip =>
        rcases List.mem_cons.mp hw with rfl | hmem
        · rw [hfile] at hskip; simp at hskip
        · exact ih recs h w hmem hfile hext
      next hisfile =>
        split at h
        next hmatch =>
          split at h
          next heq => exact absurd h (by simp)
          next u heq =>
            cases hc : fs.copy a.path (bin_dir ++ [a.path.getLastD ""]) with
            | error err => rw [hc] at h; simp at h
            | ok u2 =>
                rw [hc] at h
                rcases List.mem_cons.mp hw with rfl | hmem
                · rw [hc]; rfl
                · cases hrec : preservePythonBuildFiles fs bin_dir as with
                  | error err => rw [hrec] at h; simp at h
                  | ok tail => exact ih tail hrec w hmem hfile hext
        next hmatch =>
          rcases List.mem_cons.mp hw with rfl | hmem
          · rw [hext] at hmatch; simp at hmatch
          · exact ih recs h w hmem hfile hext

/-- C9 (amended): a copy failure aborts preservation — whenever some
candidate of a processed phase has a failing copy, `preserve_executables`
returns an error, discarding the records of the copies that did succeed,
instead of returning the list of successful records. -/
theorem preserve_aborts_on_copy_failure (fs : ExecFS) (project : Project) :
    (project.kind = .rust →
      ∀ profile ∈ ["release", "debug"],
        fs.isDir (project.build_arts.path ++ [profile]) = true →
        ∀ exes,
          find_rust_executables fs (project.build_arts.path ++ [profile])
            = .ok exes →
          ∀ exe ∈ exes,
            (fs.copy exe
              ((project.root_path ++ ["bin"] ++ [profile])
                ++ [exe.getLastD ""])).isOk = false →
            (preserve_executables fs project).isOk = false) ∧
    (project.kind = .python →
      fs.isDir (project.root_path ++ ["dist"]) = true →
      ∀ entries, fs.readDir (project.root_path ++ ["dist"]) = .ok entries →
        ∀ e ∈ entries, extOfName e.name = some "whl" →
          (fs.copy ((project.root_path ++ ["dist"]) ++ [e.name])
            ((project.root_path ++ ["bin"]) ++ [e.name])).isOk = false →
          (preserve_executables fs project).isOk = false) ∧
    (project.kind = .python →
      fs.isDir (project.root_path ++ ["build"]) = true →
      ∀ w ∈ fs.walkFiles (project.root_path ++ ["build"]), w.isFile = true →
        (match extOfName (w.path.getLastD "") with
         | some ext => ext == "so" || ext == "pyd"
         | none => false) = true →
        (fs.copy w.path
          ((project.root_path ++ ["bin"]) ++ [w.path.getLastD ""])).isOk
            = false →
        (preserve_executables fs project).isOk = false) := by
  refine ⟨?_, ?_, ?_⟩
  · intro hkind profile hprof hdir exes hfind exe hexe hfail
    cases hres : preserve_executables fs project with
    | error e => rfl
    | ok recs =>
        exfalso
        rw [preserve_executables, hkind] at hres
        rw [preserve_rust_executables] at hres
        have := preserveRustProfiles_ok_all fs project.build_arts.path
          (project.root_path ++ ["bin"]) ["release", "debug"] recs hres
          profile hprof hdir exes hfind exe hexe
        rw [this] at hfail
        exact absurd hfail (by simp)
  · intro hkind hdist entries hread e he hwhl hfail
    cases hres : preserve_executables fs project with
    | error e => rfl
    | ok recs =>
        exfalso
        rw [preserve_executables, hkind] at hres
        simp only [preserve_python_executables, hdist, if_true, hread] at hres
        cases hwhls : preservePythonWhls fs (project.root_path ++ ["bin"])
            (project.root_path ++ ["dist"]) entries with
        | error err => rw [hwhls] at hres; simp at hres
        | ok whls =>
            have := preservePythonWhls_ok_all fs (project.root_path ++ ["bin"])
              (project.root_path ++ ["dist"]) entries whls hwhls e he hwhl
            rw [this] at hfail
            exact absurd hfail (by simp)
  · intro hkind hbuild w hw hfile hext hfail
    cases hres : preserve_executables fs project with
    | error e => rfl
    | ok recs =>
        exfalso
        rw [preserve_executables, hkind] at hres
        simp only [preserve_python_executables, hbuild, if_true] at hres
        split at hres
        next heq => simp at hres
        next whls heq =>
          cases hbf : preservePythonBuildFiles fs (project.root_path ++ ["bin"])
              (fs.walkFiles (project.root_path ++ ["build"])) with
          | error err => rw [hbf] at hres; simp at hres
          | ok exts =>
              have := preservePythonBuildFiles_ok_all fs
                (project.root_path ++ ["bin"])
                (fs.walkFiles (project.root_path ++ ["build"])) exts hbf
                w hw hfile hext
              rw [this] at hfail
              exact absurd hfail (by simp)

/-- The Rust project of the C9 scenario. -/
def execProjC9 : Project :=
  { kind := .rust, root_path := ["r"]
    build_arts := { path := ["r", "target"], size := 0 }, name := none }

/-- Filesystem for the C9 scenario: `target/release/` holds two executables;
copying `app1` succeeds, copying `app2` fails. -/
def execFsC9 : ExecFS where
  isDir := fun p => p == ["r", "target", "release"]
  readDir := fun p =>
    if p == ["r", "target", "release"] then
      .ok [{ name := "app1", isFile := true, execCheck := .ok true },
           { name := "app2", isFile := true, execCheck := .ok true }]
    else .error "unreadable"
  createDirAll := fun _ => .ok ()
  copy := fun src _ =>
    if src == ["r", "target", "release", "app1"] then .ok ()
    else .error "disk full"
  walkFiles := fun _ => []

/-- C9 counterexample: copying the first candidate succeeds, copying the
second fails, and the preserver returns an error — discarding the record of
the successful copy — instead of returning the list of records for the
copies that succeeded. -/
theorem preserve_partial_failure_counterexample :
    (execFsC9.copy ["r", "target", "release", "app1"]
        ["r", "bin", "release", "app1"]).isOk = true ∧
    (preserve_executables execFsC9 execProjC9).isOk = false :=
  ⟨rfl, rfl⟩

/-- Witness for C9 (amended) in the concrete two-executable scenario. -/
theorem preserve_aborts_on_copy_failure_witness :
    (preserve_executables execFsC9 execProjC9).isOk = false :=
  (preserve_aborts_on_copy_failure execFsC9 execProjC9).1 rfl
    "release" (by decide) rfl
    [["r", "target", "release", "app1"], ["r", "target", "release", "app2"]]
    rfl ["r", "target", "release", "app2"] (by decide) rfl

end CleanDevDirs
